import Mathlib

/-!
Shallow embedding of the Mancala core: the board state machine from
board.py (validation, circular bead distribution, capture, endgame
accounting) and the two adversarial searches from minimax.py (plain
minimax and the alpha-beta variant), together with theorems settling
the specification claims about them.

Machine values are embedded as Nat / Int; the Python float values used
by the searches only ever hold exact integers or the two infinities, so
they are embedded as an extended-integer type XVal.  Python list
indexing (which accepts negative indices and raises IndexError outside
[-len, len)) is embedded by pyIdx.  Exceptions are embedded with
Except; the possible mutation of the board before an exception is kept
by returning the board alongside the Except result.
-/

namespace Mancala

/-- Extended values: the Python floats used by the search are either an
exact integer score or one of the two infinities. -/
inductive XVal where
  | neginf : XVal
  | fin : Int → XVal
  | posinf : XVal
deriving DecidableEq

/-- Strict comparison of extended values, matching the Python total
order on floats restricted to integers and infinities. -/
def XVal.lt : XVal → XVal → Bool
  | .neginf, .neginf => false
  | .neginf, _ => true
  | .fin _, .neginf => false
  | .fin a, .fin b => a < b
  | .fin _, .posinf => true
  | .posinf, _ => false

/-- Python max(a, b): returns a when a is at least b, else b. -/
def XVal.max (a b : XVal) : XVal := if XVal.lt a b then b else a

/-- Python min(a, b): returns a when a is at most b, else b. -/
def XVal.min (a b : XVal) : XVal := if XVal.lt b a then b else a

/-- The two players. -/
inductive Player where
  | A : Player
  | B : Player
deriving DecidableEq

/-- The opponent of a player (the Python expression
A if current == B else B). -/
def Player.other : Player → Player
  | .A => .B
  | .B => .A

/-- Python exceptions that the embedded code can raise: the ValueError
raised by Board.move for an invalid selection, an IndexError from list
indexing, and a marker for a non-terminating distribution loop (which
never occurs on well-formed boards, see the termination theorem). -/
inductive PyError where
  | invalidMove : PyError
  | indexError : PyError
  | diverge : PyError
deriving DecidableEq

/-- The board: configuration parameters and the pocket array
(index 0 is the store of B, index side_size + 1 the store of A). -/
structure Board where
  side_size : Nat
  starting_pieces : Nat
  pockets : List Nat
deriving DecidableEq

/-- Index of the store of player A, as set in Board.__init__. -/
def Board.storeA_idx (b : Board) : Nat := b.side_size + 1

/-- Index of the store of player B, as set in Board.__init__. -/
def Board.storeB_idx (_b : Board) : Nat := 0

/-- Board.__init__: every non-store pocket starts with starting_pieces
beads, both stores start at 0. -/
def mkBoard (side_size starting_pieces : Nat) : Board :=
  { side_size := side_size
    starting_pieces := starting_pieces
    pockets := (List.range (2 * side_size + 2)).map
      (fun pocket => if pocket = side_size + 1 ∨ pocket = 0 then 0 else starting_pieces) }

/-- Board.get_pocket_values: the non-store row of a player, as the
Python slices pockets[1 : storeA_idx] and pockets[storeA_idx + 1 :]. -/
def get_pocket_values (b : Board) (player : Player) : List Nat :=
  match player with
  | .A => (b.pockets.drop 1).take b.side_size
  | .B => b.pockets.drop (b.side_size + 2)

/-- Board.get_player_score: the store value of a player. -/
def get_player_score (b : Board) (player : Player) : Nat :=
  match player with
  | .A => b.pockets.getD b.storeA_idx 0
  | .B => b.pockets.getD b.storeB_idx 0

/-- Board.get_possible_moves: the 1-indexed pockets of a player whose
count is nonzero, in ascending order (normalized for player B). -/
def get_possible_moves (b : Board) (player : Player) : List Nat :=
  match player with
  | .A => (List.range' 1 b.side_size).filter (fun pocket => 0 < b.pockets.getD pocket 0)
  | .B => ((List.range' (b.storeA_idx + 1) b.side_size).filter
      (fun pocket => 0 < b.pockets.getD pocket 0)).map (fun pocket => pocket - b.storeA_idx)

/-- Python list indexing: an index i into a list of length n selects
position i when 0 <= i < n, position n + i when -n <= i < 0, and
raises IndexError (none) otherwise. -/
def pyIdx (n : Nat) (i : Int) : Option Nat :=
  if 0 ≤ i ∧ i < (n : Int) then some i.toNat
  else if -(n : Int) ≤ i ∧ i < 0 then some ((n : Int) + i).toNat
  else none

/-- Board._valid_pocket: the invalid conditions evaluated in order with
Python short-circuit or; the bead-count read at the end uses Python
list indexing on the raw argument and can raise IndexError. -/
def valid_pocket (b : Board) (pocket : Int) (player : Player) : Except PyError Bool :=
  if player = .B ∧ 0 < pocket ∧ pocket ≤ (b.side_size : Int) then .ok false
  else if player = .A ∧ (b.side_size : Int) + 1 < pocket ∧ pocket < (b.pockets.length : Int) then
    .ok false
  else if pocket = ((b.storeA_idx : Nat) : Int) then .ok false
  else if pocket = ((b.storeB_idx : Nat) : Int) then .ok false
  else if (b.pockets.length : Int) ≤ pocket then .ok false
  else
    match pyIdx b.pockets.length pocket with
    | none => .error .indexError
    | some i => .ok (decide (¬ b.pockets.getD i 0 = 0))

/-- The single index skipped during distribution: the store of the
opponent of the moving player. -/
def skip_idx (b : Board) (player : Player) : Nat :=
  match player with
  | .A => b.storeB_idx
  | .B => b.storeA_idx

/-- The while-loop of Board._distribute_beads, run on explicit fuel:
advance one pocket (wrapping), deposit a bead unless the pocket is the
skipped store, until the beads are exhausted.  Returns none when the
fuel runs out before the beads do (the Python loop would still be
running at that point). -/
def distLoop (skip : Nat) (fuel : Nat) (pk : List Nat) (idx : Nat) (beads : Nat) :
    Option (List Nat × Nat) :=
  match beads with
  | 0 => some (pk, idx)
  | beads' + 1 =>
    match fuel with
    | 0 => none
    | fuel' + 1 =>
      let idx2 := (idx + 1) % pk.length
      if idx2 = skip then distLoop skip fuel' pk idx2 (beads' + 1)
      else distLoop skip fuel' (pk.set idx2 (pk.getD idx2 0 + 1)) idx2 beads'

/-- Board._distribute_beads: take all beads from the start pocket and
run the distribution loop.  The fuel 2 * beads + 1 always suffices on a
board with at least two pockets (the termination theorem below). -/
def distribute_beads (b : Board) (start : Int) (player : Player) :
    Option (List Nat × Nat) :=
  match pyIdx b.pockets.length start with
  | none => none
  | some s0 =>
    let beads := b.pockets.getD s0 0
    let pk := b.pockets.set s0 0
    distLoop (skip_idx b player) (2 * beads + 1) pk s0 beads

/-- The raw start index used by Board.move: the pocket itself for
player A, pocket + side_size + 1 for player B. -/
def startIndex (b : Board) (pocket : Int) (player : Player) : Int :=
  match player with
  | .A => pocket
  | .B => pocket + (b.side_size : Int) + 1

/-- The store index of the moving player, as selected inside the
capture branch of Board.move. -/
def store_idx (b : Board) (player : Player) : Nat :=
  match player with
  | .A => b.storeA_idx
  | .B => b.storeB_idx

/-- The extra-turn flag computed by Board.move from the final pocket
of the distribution: equality with the store of the moving player. -/
def extra_turn_flag (b : Board) (player : Player) (final : Nat) : Bool :=
  match player with
  | .A => final == b.storeA_idx
  | .B => final == b.storeB_idx

/-- The tail of Board.move after the capture block: the endgame check
and, when a row is empty, the two store additions (which the source
performs without zeroing any pocket). -/
def finish_move (b : Board) (extra_turn : Bool) : Board × Except PyError (Bool × Bool) :=
  let endgame : Bool :=
    decide ((get_pocket_values b .A).sum = 0 ∨ (get_pocket_values b .B).sum = 0)
  if endgame then
    let pkA := b.pockets.set b.storeA_idx
      (b.pockets.getD b.storeA_idx 0 + (get_pocket_values b .A).sum)
    let bA : Board := { b with pockets := pkA }
    let pkB := bA.pockets.set bA.storeB_idx
      (bA.pockets.getD bA.storeB_idx 0 + (get_pocket_values bA .B).sum)
    ({ b with pockets := pkB }, .ok (extra_turn, true))
  else (b, .ok (extra_turn, false))

/-- The body of Board.move after a successful validation: distribution,
the extra-turn test, the capture block, then finish_move. -/
def move_core (b : Board) (start : Int) (player : Player) :
    Board × Except PyError (Bool × Bool) :=
  match distribute_beads b start player with
  | none => (b, .error .diverge)
  | some (pk1, final) =>
    let extra_turn : Bool :=
      match player with
      | .A => final == b.storeA_idx
      | .B => final == b.storeB_idx
    let b1 : Board := { b with pockets := pk1 }
    if (player = .A ∧ final < b.side_size + 1) ∨
        (player = .B ∧ b.side_size + 2 ≤ final ∧ final < b.pockets.length - 1) then
      if pk1.getD final 0 = 1 then
        match pyIdx pk1.length (2 * ((b.side_size : Int) + 1) - (final : Int)) with
        | none => (b1, .error .indexError)
        | some opposite =>
          let captured := pk1.getD opposite 0 + 1
          let pk2 := (pk1.set opposite 0).set final 0
          let pk3 := pk2.set (store_idx b player) (pk2.getD (store_idx b player) 0 + captured)
          let b2 : Board := { b with pockets := pk3 }
          finish_move b2 extra_turn
      else finish_move b1 extra_turn
    else finish_move b1 extra_turn

/-- Board.move: map the pocket to its raw index, validate, then run the
move body.  The board component of the result is the state of the
pocket array when the call returns or raises. -/
def move (b : Board) (pocket : Int) (player : Player) :
    Board × Except PyError (Bool × Bool) :=
  let start := startIndex b pocket player
  match valid_pocket b start player with
  | .error e => (b, .error e)
  | .ok false => (b, .error .invalidMove)
  | .ok true => move_core b start player

/-- minimax.evaluate: store difference from the viewpoint of the
maximizing player. -/
def evaluate (b : Board) (maximizing_player : Player) : XVal :=
  .fin ((get_player_score b maximizing_player : Int) -
    (get_player_score b maximizing_player.other : Int))

/-- One candidate of the plain minimax loop: clone the board, apply the
move, determine the next player (the mover again on an extra turn), and
recurse through f at the reduced depth, keeping only the value.  The
game_over flag returned by the move is passed to the recursive call. -/
def mmChild (f : Board → Player → Bool → Except PyError (XVal × Option Nat))
    (current_player : Player) (b : Board) (m : Nat) : Except PyError XVal :=
  let res := move b (Int.ofNat m) current_player
  match res.2 with
  | .error e => .error e
  | .ok (extra_turn, game_over) =>
    (f res.1 (if extra_turn then current_player else current_player.other) game_over).map
      Prod.fst

/-- The move loop of the plain minimax: when maximizing, take the
running max and update the tracked move exactly on a strict increase;
when minimizing, take the running min and leave the tracked move
untouched (as the source does). -/
def mmLoop (isMax : Bool) (g : Nat → Except PyError XVal) :
    List Nat → XVal → Nat → Except PyError (XVal × Nat)
  | [], best_val, best_move => .ok (best_val, best_move)
  | m :: rest, best_val, best_move =>
    match g m with
    | .error e => .error e
    | .ok v =>
      if isMax then
        let eval_val := XVal.max best_val v
        if XVal.lt best_val eval_val then mmLoop isMax g rest eval_val m
        else mmLoop isMax g rest best_val best_move
      else mmLoop isMax g rest (XVal.min best_val v) best_move

/-- minimax.minimax: terminal evaluation at depth 0 or game over;
otherwise best_move starts as the first possible move (an IndexError
when there is none) and the loop runs over all candidates. -/
def minimax (maximizing_player : Player) :
    Nat → Board → Player → Bool → Except PyError (XVal × Option Nat)
  | 0, b, _, _ => .ok (evaluate b maximizing_player, none)
  | depth + 1, b, current_player, game_over =>
    if game_over then .ok (evaluate b maximizing_player, none)
    else
      match get_possible_moves b current_player with
      | [] => .error .indexError
      | m0 :: rest =>
        match mmLoop (decide (maximizing_player = current_player))
            (mmChild (minimax maximizing_player depth) current_player b) (m0 :: rest)
            (if maximizing_player = current_player then .neginf else .posinf) m0 with
        | .error e => .error e
        | .ok (best_val, best_move) => .ok (best_val, some best_move)

/-- One candidate of the alpha-beta loop: clone, apply the move, pick
the next player, and recurse through f with the current bounds.  The
game_over flag returned by the move is dropped, exactly as in the
source, where the recursive call leaves game_over at its default. -/
def abChild (f : Board → Player → XVal → XVal → Except PyError (XVal × Option Nat))
    (current_player : Player) (b : Board) (m : Nat) (alpha beta : XVal) :
    Except PyError XVal :=
  let res := move b (Int.ofNat m) current_player
  match res.2 with
  | .error e => .error e
  | .ok (extra_turn, _game_over) =>
    (f res.1 (if extra_turn then current_player else current_player.other) alpha beta).map
      Prod.fst

/-- The maximizing loop of the alpha-beta search: update on a strict
increase (recording the move only at top level), raise alpha, and break
once best_val reaches beta. -/
def abLoopMax (g : Nat → XVal → XVal → Except PyError XVal) (is_top_level : Bool) :
    List Nat → XVal → Option Nat → XVal → XVal → Except PyError (XVal × Option Nat)
  | [], best_val, best_move, _, _ => .ok (best_val, best_move)
  | m :: rest, best_val, best_move, alpha, beta =>
    match g m alpha beta with
    | .error e => .error e
    | .ok eval_val =>
      let best_val' := if XVal.lt best_val eval_val then eval_val else best_val
      let best_move' := if XVal.lt best_val eval_val then
        (if is_top_level then some m else none) else best_move
      let alpha' := XVal.max alpha best_val'
      if XVal.lt best_val' beta then abLoopMax g is_top_level rest best_val' best_move' alpha' beta
      else .ok (best_val', best_move')

/-- The minimizing loop of the alpha-beta search: update on a strict
decrease (recording the move only at top level), lower beta, and break
once best_val reaches alpha. -/
def abLoopMin (g : Nat → XVal → XVal → Except PyError XVal) (is_top_level : Bool) :
    List Nat → XVal → Option Nat → XVal → XVal → Except PyError (XVal × Option Nat)
  | [], best_val, best_move, _, _ => .ok (best_val, best_move)
  | m :: rest, best_val, best_move, alpha, beta =>
    match g m alpha beta with
    | .error e => .error e
    | .ok eval_val =>
      let best_val' := if XVal.lt eval_val best_val then eval_val else best_val
      let best_move' := if XVal.lt eval_val best_val then
        (if is_top_level then some m else none) else best_move
      let beta' := XVal.min beta best_val'
      if XVal.lt alpha best_val' then abLoopMin g is_top_level rest best_val' best_move' alpha beta'
      else .ok (best_val', best_move')

/-- minimax.minimax_alpha_beta: terminal evaluation at depth 0 or game
over; otherwise best_move starts as the first possible move when one
exists, and the maximizing or minimizing pruned loop runs.  Recursive
calls pass the bounds but neither game_over nor is_top_level. -/
def minimax_alpha_beta (maximizing_player : Player) :
    Nat → Board → Player → XVal → XVal → Bool → Bool → Except PyError (XVal × Option Nat)
  | 0, b, _, _, _, _, _ => .ok (evaluate b maximizing_player, none)
  | depth + 1, b, current_player, alpha, beta, game_over, is_top_level =>
    if game_over then .ok (evaluate b maximizing_player, none)
    else
      let moves := get_possible_moves b current_player
      let best_move0 := moves.head?
      let g := abChild
        (fun b2 p2 a2 b2v => minimax_alpha_beta maximizing_player depth b2 p2 a2 b2v false false)
        current_player b
      if maximizing_player = current_player then
        abLoopMax g is_top_level moves .neginf best_move0 alpha beta
      else
        abLoopMin g is_top_level moves .posinf best_move0 alpha beta

/-! Order lemmas for the extended values. -/

theorem XVal.lt_irrefl (a : XVal) : XVal.lt a a = false := by
  cases a <;> simp [XVal.lt]

theorem XVal.lt_trans' {a b c : XVal} (h1 : XVal.lt a b = true) (h2 : XVal.lt b c = true) :
    XVal.lt a c = true := by
  cases a <;> cases b <;> cases c <;> simp_all [XVal.lt]
  all_goals omega

theorem XVal.lt_of_nlt_of_lt {a b c : XVal} (h1 : XVal.lt b a = false)
    (h2 : XVal.lt b c = true) : XVal.lt a c = true := by
  cases a <;> cases b <;> cases c <;> simp_all [XVal.lt]
  all_goals omega

theorem XVal.eq_neginf_of_nlt {a : XVal} (h : XVal.lt .neginf a = false) : a = .neginf := by
  cases a <;> simp_all [XVal.lt]

theorem XVal.lt_max (a b : XVal) : XVal.lt a (XVal.max a b) = XVal.lt a b := by
  unfold XVal.max
  cases h : XVal.lt a b <;> simp [h, XVal.lt_irrefl]

/-! Termination of the distribution loop. -/

/-- On a cycle of length at least two, stepping forward from the
skipped index leaves it. -/
theorem mod_succ_ne (len skip : Nat) (h2 : 2 ≤ len) (hs : skip < len) :
    (skip + 1) % len ≠ skip := by
  rcases Nat.lt_or_ge (skip + 1) len with h | h
  · rw [Nat.mod_eq_of_lt h]; omega
  · have hlen : skip + 1 = len := by omega
    rw [hlen, Nat.mod_self]; omega

/-- Fuel bound for the distribution loop: every step either consumes a
bead or sits on the skipped store, and the latter cannot happen twice
in a row on a board with at least two pockets, so 2 * beads + 1 steps
always finish the loop. -/
theorem distLoop_isSome (skip : Nat) :
    ∀ (fuel beads idx : Nat) (pk : List Nat), 2 ≤ pk.length →
      2 * beads + (if (idx + 1) % pk.length = skip then 1 else 0) ≤ fuel →
      (distLoop skip fuel pk idx beads).isSome = true := by
  intro fuel
  induction fuel with
  | zero =>
    intro beads idx pk h2 hb
    match beads with
    | 0 => simp [distLoop]
    | beads' + 1 =>
      exfalso
      rcases Nat.lt_or_ge ((idx + 1) % pk.length) skip with h | h <;> omega
  | succ f ih =>
    intro beads idx pk h2 hb
    match beads with
    | 0 => simp [distLoop]
    | beads' + 1 =>
      unfold distLoop
      simp only []
      split

      case isTrue heq =>
        apply ih (beads' + 1) ((idx + 1) % pk.length) pk h2
        have hsk : skip < pk.length := by
          rw [← heq]
          exact Nat.mod_lt _ (by omega)
        have hne : ((idx + 1) % pk.length + 1) % pk.length ≠ skip := by
          rw [heq]
          exact mod_succ_ne _ _ h2 hsk
        rw [if_neg hne]
        rw [if_pos heq] at hb
        omega
      case isFalse hne =>
        have hlenset : (pk.set ((idx + 1) % pk.length) (pk.getD ((idx + 1) % pk.length) 0 + 1)).length = pk.length :=
          List.length_set pk _ _
        apply ih beads' ((idx + 1) % pk.length) _ (by omega)
        rw [hlenset]
        have hind : (if ((idx + 1) % pk.length + 1) % pk.length = skip then 1 else 0) ≤ 1 := by
          split <;> omega
        have hind0 : 0 ≤ (if (idx + 1) % pk.length = skip then 1 else 0) := by
          split <;> omega
        omega

/-- C10: on every board with positive side_size (hence a pocket array
of length 2 * side_size + 2, at least four), the bead-distribution loop
terminates for every in-range start index and any bead count there. -/
theorem C10_distribution_terminates (b : Board) (player : Player) (start : Int)
    (hside : 0 < b.side_size) (hlen : b.pockets.length = 2 * b.side_size + 2)
    (h0 : 0 ≤ start) (h1 : start < (b.pockets.length : Int)) :
    (distribute_beads b start player).isSome = true := by
  unfold distribute_beads pyIdx
  rw [if_pos ⟨h0, h1⟩]
  simp only []
  apply distLoop_isSome
  · rw [List.length_set]; omega
  · have hind : (if (start.toNat + 1) % (b.pockets.set start.toNat 0).length = skip_idx b player
        then 1 else 0) ≤ 1 := by split <;> omega
    omega

/-- Witness for C10 at a concrete input: distributing from pocket 3 of
the default board terminates. -/
theorem C10_distribution_terminates_witness :
    (distribute_beads (mkBoard 6 4) 3 .A).isSome = true :=
  C10_distribution_terminates (mkBoard 6 4) .A 3 (by decide) (by decide) (by decide) (by decide)

/-! Error atomicity. -/

/-- finish_move always returns normally, echoing its extra_turn flag. -/
theorem finish_move_snd (b : Board) (et : Bool) :
    ∃ eg, (finish_move b et).2 = .ok (et, eg) := by
  unfold finish_move
  by_cases hc : ((get_pocket_values b .A).sum = 0 ∨ (get_pocket_values b .B).sum = 0)
  · exact ⟨true, by simp [hc]⟩
  · exact ⟨false, by simp [hc]⟩

/-- finish_move never raises at all, in particular never the
invalid-move error. -/
theorem finish_move_not_invalid (b : Board) (et : Bool) :
    (finish_move b et).2 ≠ .error .invalidMove := by
  obtain ⟨eg, heg⟩ := finish_move_snd b et
  simp [heg]

/-- The body of a validated move never raises the invalid-move error:
its only raises are the IndexError of the capture lookup and the
divergence marker of the distribution loop. -/
theorem move_core_not_invalid (b : Board) (start : Int) (player : Player) :
    (move_core b start player).2 ≠ .error .invalidMove := by
  unfold move_core
  cases hd : distribute_beads b start player with
  | none => simp
  | some pf =>
    obtain ⟨pk1, final⟩ := pf
    simp only []
    split
    · split
      · split
        · simp
        · exact finish_move_not_invalid _ _
      · exact finish_move_not_invalid _ _
    · exact finish_move_not_invalid _ _

/-- C7: whenever move raises the invalid-move error, the board is
returned exactly as it was: validation precedes every mutation. -/
theorem C7_invalid_move_is_atomic (b : Board) (pocket : Int) (player : Player)
    (h : (move b pocket player).2 = .error .invalidMove) :
    (move b pocket player).1 = b := by
  unfold move at h ⊢
  cases hv : valid_pocket b (startIndex b pocket player) player with
  | error e => simp [hv]
  | ok v =>
    cases v with
    | false => simp [hv]
    | true =>
      simp only [hv] at h
      exact absurd h (move_core_not_invalid b (startIndex b pocket player) player)

/-- Witness for C7: selecting the store of player B (pocket 0) raises
the invalid-move error and leaves the default board unchanged. -/
theorem C7_invalid_move_is_atomic_witness :
    (move (mkBoard 6 4) 0 .A).1 = mkBoard 6 4 :=
  C7_invalid_move_is_atomic (mkBoard 6 4) 0 .A (by rfl)

/-! The alpha-beta search on an empty move list. -/

/-- C9: a non-terminal alpha-beta call whose move list is empty raises
nothing and returns negative infinity (maximizing) or positive
infinity (minimizing) with no move. -/
theorem C9_alpha_beta_empty_moves (maxP cur : Player) (d : Nat) (b : Board)
    (alpha beta : XVal) (is_top_level : Bool)
    (h : get_possible_moves b cur = []) :
    minimax_alpha_beta maxP (d + 1) b cur alpha beta false is_top_level =
      .ok (if maxP = cur then XVal.neginf else XVal.posinf, none) := by
  simp only [minimax_alpha_beta, h, Bool.false_eq_true, if_false, List.head?]
  split
  · simp [abLoopMax]
  · simp [abLoopMin]

/-- Witness for C9: on a board where the row of player A is empty, the
alpha-beta search for A at depth 1 returns negative infinity, none. -/
theorem C9_alpha_beta_empty_moves_witness :
    minimax_alpha_beta .A 1 ⟨1, 1, [0, 0, 0, 5]⟩ .A .neginf .posinf false false =
      .ok (.neginf, none) := by
  have h := C9_alpha_beta_empty_moves .A .A 0 ⟨1, 1, [0, 0, 0, 5]⟩ .neginf .posinf false
    (by rfl)
  simpa using h

/-! Distribution and the extra-turn rule. -/

/-- A normal return of finish_move echoes the extra-turn flag it was
given. -/
theorem finish_move_et (bb : Board) (x : Bool) {b2 : Board} {et eg : Bool}
    (h : finish_move bb x = (b2, .ok (et, eg))) : et = x := by
  obtain ⟨eg2, heg⟩ := finish_move_snd bb x
  have h2 := congrArg Prod.snd h
  rw [heg] at h2
  simp at h2
  exact h2.1.symm

/-- A normal return of move_core carries exactly the extra-turn flag
computed from the final pocket of the distribution: equality with the
store of the moving player. -/
theorem move_core_et (b : Board) (start : Int) (player : Player) {b2 : Board} {et eg : Bool}
    {pk : List Nat} {f : Nat}
    (hdist : distribute_beads b start player = some (pk, f))
    (h : move_core b start player = (b2, .ok (et, eg))) :
    et = extra_turn_flag b player f := by
  cases player <;>
  · unfold move_core at h
    rw [hdist] at h
    simp only [] at h
    simp only [extra_turn_flag]
    split at h
    · split at h
      · split at h
        · simp at h
        · exact finish_move_et _ _ h
      · exact finish_move_et _ _ h
    · exact finish_move_et _ _ h

/-- C8: for every successful move, the extra-turn flag is true exactly
when the final pocket of the distribution is the store of the moving
player; and the concrete scenario on the default board: player A plays
pocket 3, the four beads land on indices 4, 5, 6, 7, the extra turn is
granted and the game does not end. -/
theorem C8_distribution_and_extra_turn :
    (∀ (b : Board) (pocket : Int) (player : Player) (b2 : Board) (et eg : Bool)
        (pk : List Nat) (f : Nat),
        move b pocket player = (b2, .ok (et, eg)) →
        distribute_beads b (startIndex b pocket player) player = some (pk, f) →
        (et = true ↔ f = store_idx b player)) ∧
    move (mkBoard 6 4) 3 .A =
      (⟨6, 4, [0, 4, 4, 0, 5, 5, 5, 1, 4, 4, 4, 4, 4, 4]⟩, .ok (true, false)) := by
  constructor
  · intro b pocket player b2 et eg pk f hmove hdist
    unfold move at hmove
    cases hv : valid_pocket b (startIndex b pocket player) player with
    | error e => simp [hv] at hmove
    | ok v =>
      cases v with
      | false => simp [hv] at hmove
      | true =>
        simp only [hv] at hmove
        have hx := move_core_et b (startIndex b pocket player) player hdist hmove
        subst hx
        cases player <;>
          simp [extra_turn_flag, store_idx, Board.storeA_idx, Board.storeB_idx]
  · rfl

/-- Witness for C8: the scenario move lands its last bead on index 7,
the store of player A, and indeed reports an extra turn. -/
theorem C8_distribution_and_extra_turn_witness :
    (true = true ↔ (7 : Nat) = store_idx (mkBoard 6 4) .A) :=
  C8_distribution_and_extra_turn.1 (mkBoard 6 4) 3 .A
    ⟨6, 4, [0, 4, 4, 0, 5, 5, 5, 1, 4, 4, 4, 4, 4, 4]⟩ true false
    [0, 4, 4, 0, 5, 5, 5, 1, 4, 4, 4, 4, 4, 4] 7 (by rfl) (by rfl)

/-! Move tracking in the plain minimax. -/

/-- Bounded maximum unfolds to its second argument on a strict
increase. -/
theorem XVal.max_eq_of_lt {a b : XVal} (h : XVal.lt a b = true) : XVal.max a b = b := by
  unfold XVal.max
  rw [if_pos h]

/-- The minimizing branch of the plain minimax loop never touches the
tracked move: whatever it returns as move is the move it started
with. -/
theorem mmLoop_min_move (g : Nat → Except PyError XVal) :
    ∀ (l : List Nat) (bv : XVal) (bm : Nat) (v : XVal) (m : Nat),
      mmLoop false g l bv bm = .ok (v, m) → m = bm := by
  intro l
  induction l with
  | nil =>
    intro bv bm v m h
    simp [mmLoop] at h
    exact h.2.symm
  | cons x rest ih =>
    intro bv bm v m h
    unfold mmLoop at h
    cases hg : g x with
    | error e => rw [hg] at h; simp at h
    | ok vx =>
      rw [hg] at h
      simp only [Bool.false_eq_true, if_false] at h
      exact ih _ _ _ _ h

/-- Invariant of the maximizing branch of the plain minimax loop: the
result is either the entering value and move, with no remaining
candidate strictly above the entering value, or the returned move is a
remaining candidate whose child value is the returned value, strictly
above the entering value and the values of all candidates before it,
and not exceeded by any candidate after it. -/
theorem mmLoop_max_spec (g : Nat → Except PyError XVal) :
    ∀ (l : List Nat) (bv : XVal) (bm : Nat) (v : XVal) (m : Nat),
      mmLoop true g l bv bm = .ok (v, m) →
      (v = bv ∧ m = bm ∧ ∀ x ∈ l, ∃ vx, g x = .ok vx ∧ XVal.lt bv vx = false) ∨
      (∃ pre post, l = pre ++ m :: post ∧ g m = .ok v ∧ XVal.lt bv v = true ∧
        (∀ x ∈ pre, ∃ vx, g x = .ok vx ∧ XVal.lt vx v = true) ∧
        (∀ x ∈ post, ∃ vx, g x = .ok vx ∧ XVal.lt v vx = false)) := by
  intro l
  induction l with
  | nil =>
    intro bv bm v m h
    simp [mmLoop] at h
    exact Or.inl ⟨h.1.symm, h.2.symm, by simp⟩
  | cons x rest ih =>
    intro bv bm v m h
    unfold mmLoop at h
    cases hg : g x with
    | error e => rw [hg] at h; simp at h
    | ok vx =>
      rw [hg] at h
      simp only [if_true, XVal.lt_max] at h
      by_cases hlt : XVal.lt bv vx = true
      · rw [if_pos hlt, XVal.max_eq_of_lt hlt] at h
        rcases ih vx x v m h with ⟨hv, hm, hall⟩ | ⟨pre, post, hl2, hgm, hblt, hpre, hpost⟩
        · subst hv; subst hm
          refine Or.inr ⟨[], rest, rfl, hg, hlt, by simp, ?_⟩
          intro y hy
          exact hall y hy
        · refine Or.inr ⟨x :: pre, post, by rw [hl2, List.cons_append], hgm,
            XVal.lt_trans' hlt hblt, ?_, hpost⟩
          intro y hy
          rcases List.mem_cons.mp hy with hy | hy
          · exact hy ▸ ⟨vx, hg, hblt⟩
          · exact hpre y hy
      · have hlt' : XVal.lt bv vx = false := by
          simpa using hlt
        rw [if_neg hlt] at h
        rcases ih bv bm v m h with ⟨hv, hm, hall⟩ | ⟨pre, post, hl2, hgm, hblt, hpre, hpost⟩
        · refine Or.inl ⟨hv, hm, ?_⟩
          intro y hy
          rcases List.mem_cons.mp hy with hy | hy
          · exact hy ▸ ⟨vx, hg, hlt'⟩
          · exact hall y hy
        · refine Or.inr ⟨x :: pre, post, by rw [hl2, List.cons_append], hgm, hblt, ?_, hpost⟩
          intro y hy
          rcases List.mem_cons.mp hy with hy | hy
          · exact hy ▸ ⟨vx, hg, XVal.lt_of_nlt_of_lt hlt' hblt⟩
          · exact hpre y hy

/-- C5 (amended): at every non-terminal call of the plain minimax with
a non-empty move list, in the maximizing branch the returned move is
the earliest-enumerated candidate achieving the returned best value,
while in the minimizing branch the returned move is always the first
enumerated candidate, regardless of the recursive values (the source
updates best_val but never best_move there). -/
theorem C5_minimax_move_tracking_amended (maxP cur : Player) (d : Nat) (b : Board)
    (m0 : Nat) (rest : List Nat) (v : XVal) (m : Nat)
    (hmoves : get_possible_moves b cur = m0 :: rest)
    (hrun : minimax maxP (d + 1) b cur false = .ok (v, some m)) :
    (cur = maxP →
      ∃ pre post, m0 :: rest = pre ++ m :: post ∧
        mmChild (minimax maxP d) cur b m = .ok v ∧
        ∀ x ∈ pre, ∃ vx, mmChild (minimax maxP d) cur b x = .ok vx ∧ XVal.lt vx v = true) ∧
    (cur ≠ maxP → m = m0) := by
  simp only [minimax, Bool.false_eq_true, if_false] at hrun
  rw [hmoves] at hrun
  simp only [] at hrun
  cases hl : mmLoop (decide (maxP = cur)) (mmChild (minimax maxP d) cur b) (m0 :: rest)
      (if maxP = cur then XVal.neginf else XVal.posinf) m0 with
  | error e => rw [hl] at hrun; simp at hrun
  | ok p =>
    obtain ⟨bv, bm⟩ := p
    rw [hl] at hrun
    simp only [Except.ok.injEq, Prod.mk.injEq, Option.some.injEq] at hrun
    obtain ⟨hbv, hbm⟩ := hrun
    rw [hbv, hbm] at hl
    constructor
    · intro hcm
      subst hcm
      rw [if_pos rfl, decide_eq_true rfl] at hl
      rcases mmLoop_max_spec _ _ _ _ _ _ hl with ⟨hv, hm, hall⟩ | ⟨pre, post, hl2, hgm, _, hpre, _⟩
      · subst hm
        obtain ⟨vx, hgx, hnlt⟩ := hall m (List.mem_cons_self m rest)
        have hvx : vx = .neginf := XVal.eq_neginf_of_nlt hnlt
        refine ⟨[], rest, rfl, ?_, by simp⟩
        rw [hv, ← hvx]
        exact hgx
      · exact ⟨pre, post, hl2, hgm, hpre⟩
    · intro hne
      rw [if_neg (fun hh => hne hh.symm), decide_eq_false (fun hh => hne hh.symm)] at hl
      exact mmLoop_min_move _ _ _ _ _ _ hl

/-- Counterexample for C5 as stated: with maximizing player A to move
later and B moving now at depth 1, the minimizing call returns value
-1 with move 1, yet the recursive value of move 1 is 0, not -1 (the
best value is achieved by move 2, which is not returned). -/
theorem C5_minimax_move_tracking_counterexample :
    minimax .A 1 ⟨2, 4, [0, 1, 1, 0, 1, 2]⟩ .B false = .ok (.fin (-1), some 1) ∧
    mmChild (minimax .A 0) .B ⟨2, 4, [0, 1, 1, 0, 1, 2]⟩ 1 = .ok (.fin 0) ∧
    XVal.fin 0 ≠ XVal.fin (-1) :=
  ⟨rfl, rfl, by decide⟩

/-- Witness for the amended C5 at a concrete maximizing call: on the
1-pocket board, player A maximizing at depth 2 returns value 0 with
move 1, the earliest candidate achieving it. -/
theorem C5_minimax_move_tracking_amended_witness :
    (Player.A = Player.A →
      ∃ pre post, [1] = pre ++ 1 :: post ∧
        mmChild (minimax .A 1) .A (mkBoard 1 1) 1 = .ok (.fin 0) ∧
        ∀ x ∈ pre, ∃ vx, mmChild (minimax .A 1) .A (mkBoard 1 1) x = .ok vx ∧
          XVal.lt vx (.fin 0) = true) ∧
    (Player.A ≠ Player.A → 1 = 1) :=
  C5_minimax_move_tracking_amended .A .A 1 (mkBoard 1 1) 1 [] (.fin 0) 1 (by rfl) (by rfl)

/-! Concrete evaluations exhibiting the divergences between the code
and the claimed behaviour. -/

/-- C1: bead conservation fails at an endgame move.  On the board built
with side_size 1 and starting_pieces 1 (total 2 * 1 * 1 = 2 beads), the
single valid move of player A empties the row of A and returns endgame;
the endgame accounting adds the remaining row total of B to the store
of B without zeroing the row, so the pocket sum afterwards is 3, not
2. -/
theorem C1_conservation_fails_at_endgame :
    (mkBoard 1 1).pockets.sum = 2 * 1 * 1 ∧
    move (mkBoard 1 1) 1 .A = (⟨1, 1, [1, 0, 1, 1]⟩, .ok (true, true)) ∧
    (⟨1, 1, [1, 0, 1, 1]⟩ : Board).pockets.sum = 3 :=
  ⟨rfl, rfl, rfl⟩

/-- C2: the endgame sweep adds the row totals to the stores but does
not zero the non-store pockets.  After the endgame move on the
side_size 1 board, the row of A is empty (the endgame trigger), the
store of B did receive the row total of B, yet the row of B still holds
its bead instead of being zeroed. -/
theorem C2_endgame_sweep_does_not_zero :
    move (mkBoard 1 1) 1 .A = (⟨1, 1, [1, 0, 1, 1]⟩, .ok (true, true)) ∧
    (get_pocket_values ⟨1, 1, [1, 0, 1, 1]⟩ .A).sum = 0 ∧
    get_player_score ⟨1, 1, [1, 0, 1, 1]⟩ .B = 1 ∧
    get_pocket_values ⟨1, 1, [1, 0, 1, 1]⟩ .B = [1] :=
  ⟨rfl, rfl, rfl, rfl⟩

/-- C3: value agreement fails.  On the initial side_size 1 board with A
maximizing and moving at depth 2, the plain minimax returns value 0,
but the alpha-beta variant returns negative infinity: its recursive
call omits the game_over flag, descends into the finished position,
finds no moves there and reports negative infinity. -/
theorem C3_value_disagreement :
    minimax .A 2 (mkBoard 1 1) .A false = .ok (.fin 0, some 1) ∧
    minimax_alpha_beta .A 2 (mkBoard 1 1) .A .neginf .posinf false true =
      .ok (.neginf, some 1) ∧
    XVal.fin 0 ≠ XVal.neginf :=
  ⟨rfl, rfl, by decide⟩

/-- C4: the capture rule skips the last pocket of the row of B.  On a
side_size 2 board, B plays pocket 1 and the single bead lands on raw
index 5 (the last non-store pocket of B), making it hold exactly 1;
the opposite pocket (index 1) holds 3 beads, yet no capture happens:
the guard requires the final pocket to be strictly below
len(pockets) - 1 = 5, so the store of B stays 0 and both pockets keep
their beads. -/
theorem C4_capture_skips_last_B_pocket :
    distribute_beads ⟨2, 4, [0, 3, 1, 0, 1, 0]⟩
      (startIndex ⟨2, 4, [0, 3, 1, 0, 1, 0]⟩ 1 .B) .B = some ([0, 3, 1, 0, 0, 1], 5) ∧
    move ⟨2, 4, [0, 3, 1, 0, 1, 0]⟩ 1 .B = (⟨2, 4, [0, 3, 1, 0, 0, 1]⟩, .ok (false, false)) ∧
    get_player_score ⟨2, 4, [0, 3, 1, 0, 0, 1]⟩ .B = 0 :=
  ⟨rfl, rfl, rfl⟩

/-- C6: a negative pocket number does not raise.  Player A requesting
pocket -1 on the default board passes validation (the Python list read
pockets[-1] lands on index 13, the last pocket of B, which is
non-empty), and the move then runs to completion, distributing the
beads of that pocket. -/
theorem C6_negative_pocket_accepted :
    valid_pocket (mkBoard 6 4) (startIndex (mkBoard 6 4) (-1) .A) .A = .ok true ∧
    move (mkBoard 6 4) (-1) .A =
      (⟨6, 4, [0, 5, 5, 5, 5, 4, 4, 0, 4, 4, 4, 4, 4, 0]⟩, .ok (false, false)) :=
  ⟨rfl, rfl⟩

end Mancala
